import Mathlib

set_option maxHeartbeats 1000000

namespace Molex

/-!
Verification of the molex-ftp-client protocol engine.

All definitions are shallow embeddings of the JavaScript source:
strings become `List Char`, byte payloads become `List Nat`, promises
become explicit outcome types, and the event-driven control channel
becomes a fold over an event list.
-/

/-! ### JavaScript primitives -/

/-- Whitespace skipped by JavaScript parseInt (ASCII subset). -/
def isJsSpace (c : Char) : Bool :=
  c = ' ' || c = '\t' || c = '\n' || c = '\r' || c = '\x0b' || c = '\x0c'

/-- Decimal value of a digit string. -/
def digitsVal (ds : List Char) : Nat :=
  ds.foldl (fun a c => 10 * a + (c.toNat - 48)) 0

def isHexDigitB (c : Char) : Bool :=
  c.isDigit || (decide (97 ≤ c.toNat) && decide (c.toNat ≤ 102))
    || (decide (65 ≤ c.toNat) && decide (c.toNat ≤ 70))

def hexDigitsVal (ds : List Char) : Nat :=
  ds.foldl
    (fun a c =>
      16 * a +
        (if c.isDigit then c.toNat - 48
         else if 97 ≤ c.toNat then c.toNat - 87
         else c.toNat - 55))
    0

/-- Model of JavaScript `parseInt(s)` with no radix argument: skip leading
whitespace, read an optional sign, detect a `0x`/`0X` hex prefix, then take the
leading digit run; `none` models `NaN`. -/
def parseIntJS (s : List Char) : Option Int :=
  let t := s.dropWhile isJsSpace
  let su : Int × List Char :=
    match t with
    | '-' :: r => (-1, r)
    | '+' :: r => (1, r)
    | r => (1, r)
  let sign := su.1
  let u := su.2
  match u with
  | '0' :: x :: r =>
    if x = 'x' ∨ x = 'X' then
      let hs := r.takeWhile isHexDigitB
      if hs.isEmpty then none else some (sign * (hexDigitsVal hs : Int))
    else
      let ds := u.takeWhile Char.isDigit
      if ds.isEmpty then none else some (sign * (digitsVal ds : Int))
  | _ =>
    let ds := u.takeWhile Char.isDigit
    if ds.isEmpty then none else some (sign * (digitsVal ds : Int))

/-- `parseInt(line.substring(0, 3))`: the reply code of a control line. -/
def codeOf (line : List Char) : Option Int :=
  parseIntJS (line.take 3)

/-- `line.charAt(3) === ' '`: the line is the final line of a reply. -/
def isFinalLine (line : List Char) : Bool :=
  (line.drop 3).head? == some ' '

/-- JavaScript `hay.includes(needle)`: substring containment. -/
def strIncludes (hay needle : List Char) : Bool :=
  hay.tails.any fun t => needle.isPrefixOf t

/-- `maskPassword` from lib/utils.js: redact the argument of a PASS command. -/
def maskPassword (command : List Char) : List Char :=
  if ("PASS ".toList).isPrefixOf command then "PASS ********".toList else command

/-! ### LineFramer: the control-socket data handler

From connection.js lines 36-62: `buffer += data; const lines =
buffer.split('\r\n'); buffer = lines.pop(); for (const line of lines)
if (line) emit('response', line)`.
-/

/-- JavaScript `s.split("\r\n")` on a character list.  Scans left to right;
each CRLF pair starts a new segment.  Never returns the empty list. -/
def splitCRLF : List Char → List (List Char)
  | [] => [[]]
  | [c] => [[c]]
  | a :: b :: rest =>
    if a = '\r' ∧ b = '\n' then
      [] :: splitCRLF rest
    else
      (a :: (splitCRLF (b :: rest)).headD []) :: (splitCRLF (b :: rest)).tail

/-- One socket `data` event: append the chunk to the buffer, split on CRLF,
keep the trailing segment as the new buffer, and emit the nonempty complete
segments (the `if (line)` guard). -/
def framerStep (buffer chunk : List Char) : List (List Char) × List Char :=
  let segs := splitCRLF (buffer ++ chunk)
  (segs.dropLast.filter (fun l => !l.isEmpty), segs.getLastD [])

/-- Deliver a sequence of chunks through the framer, collecting all emitted
lines and the final buffer. -/
def framerRun (buffer : List Char) : List (List Char) → List (List Char) × List Char
  | [] => ([], buffer)
  | ch :: chs =>
    let st := framerStep buffer ch
    let rest := framerRun st.2 chs
    (st.1 ++ rest.1, rest.2)

theorem splitCRLF_ne_nil (l : List Char) : splitCRLF l ≠ [] := by
  match l with
  | [] => simp [splitCRLF]
  | [c] => simp [splitCRLF]
  | a :: b :: rest =>
    rw [splitCRLF]
    split <;> simp

theorem splitCRLF_cons_notsep (a : Char) (z : List Char)
    (h : ¬(a = '\r' ∧ z.head? = some '\n')) :
    splitCRLF (a :: z) = (a :: (splitCRLF z).headD []) :: (splitCRLF z).tail := by
  match z with
  | [] => simp [splitCRLF]
  | b :: rest =>
    rw [splitCRLF]
    split
    · rename_i hsep
      exact absurd ⟨hsep.1, by rw [hsep.2]; rfl⟩ h
    · rfl

/-- A singleton split means the whole input is one CRLF-free segment starting
with the input's first character. -/
theorem splitCRLF_singleton (b : Char) (r : List Char) (w : List Char)
    (h : splitCRLF (b :: r) = [w]) : ∃ w', w = b :: w' := by
  match r with
  | [] =>
    simp [splitCRLF] at h
    exact ⟨[], by simp [← h]⟩
  | c :: rest =>
    rw [splitCRLF] at h
    split at h
    · have := splitCRLF_ne_nil rest
      simp at h
      exact absurd h.2 this
    · simp at h
      refine ⟨(splitCRLF (c :: rest)).head?.getD [], ?_⟩
      rw [← h.1]

/-- Splitting a concatenation: the left part's segments stay fixed except that
its trailing segment recombines with the right part before re-splitting. -/
theorem splitCRLF_append (x y : List Char) :
    splitCRLF (x ++ y)
      = (splitCRLF x).dropLast ++ splitCRLF ((splitCRLF x).getLastD [] ++ y) := by
  induction x using splitCRLF.induct with
  | case1 => simp [splitCRLF]
  | case2 c => simp [splitCRLF]
  | case3 a b rest h ih =>
    obtain ⟨ha, hb⟩ := h
    subst ha; subst hb
    obtain ⟨s, ss, hS⟩ := List.exists_cons_of_ne_nil (splitCRLF_ne_nil rest)
    have hL : splitCRLF (('\r' :: '\n' :: rest) ++ y) = [] :: splitCRLF (rest ++ y) := by
      show splitCRLF ('\r' :: '\n' :: (rest ++ y)) = _
      rw [splitCRLF]; simp
    have hx : splitCRLF ('\r' :: '\n' :: rest) = [] :: splitCRLF rest := by
      rw [splitCRLF]; simp
    rw [hL, ih, hx, hS]
    simp [List.getLastD_eq_getLast?]
  | case4 a b rest h ih =>
    obtain ⟨w, ws, hW⟩ := List.exists_cons_of_ne_nil (splitCRLF_ne_nil (b :: rest))
    have hx : splitCRLF (a :: b :: rest) = (a :: w) :: ws := by
      rw [splitCRLF, if_neg h, hW]; simp
    have hL : splitCRLF ((a :: b :: rest) ++ y)
        = (a :: (splitCRLF ((b :: rest) ++ y)).headD []) :: (splitCRLF ((b :: rest) ++ y)).tail := by
      show splitCRLF (a :: (b :: rest ++ y)) = _
      rw [splitCRLF_cons_notsep a _ (by simpa using h)]
    rw [hL, ih, hx, hW]
    match ws with
    | [] =>
      obtain ⟨w', hw'⟩ := splitCRLF_singleton b rest w hW
      have hhead : ¬(a = '\r' ∧ (w ++ y).head? = some '\n') := by
        subst hw'
        simpa using h
      have hcons := splitCRLF_cons_notsep a (w ++ y) hhead
      simp [List.getLastD_eq_getLast?, hcons]
    | v :: vs =>
      simp [List.getLastD_eq_getLast?]

/-- The trailing segment left in the buffer contains no CRLF: splitting it
again leaves it whole. -/
theorem splitCRLF_getLastD (z : List Char) :
    splitCRLF ((splitCRLF z).getLastD []) = [(splitCRLF z).getLastD []] := by
  induction z using splitCRLF.induct with
  | case1 => simp [splitCRLF]
  | case2 c => simp [splitCRLF]
  | case3 a b rest h ih =>
    obtain ⟨ha, hb⟩ := h; subst ha; subst hb
    have hx : splitCRLF ('\r' :: '\n' :: rest) = [] :: splitCRLF rest := by
      rw [splitCRLF]; simp
    obtain ⟨s, ss, hS⟩ := List.exists_cons_of_ne_nil (splitCRLF_ne_nil rest)
    rw [hx, hS]
    rw [hS] at ih
    simpa [List.getLastD_eq_getLast?] using ih
  | case4 a b rest h ih =>
    obtain ⟨w, ws, hW⟩ := List.exists_cons_of_ne_nil (splitCRLF_ne_nil (b :: rest))
    have hx : splitCRLF (a :: b :: rest) = (a :: w) :: ws := by
      rw [splitCRLF, if_neg h, hW]; simp
    rw [hx]
    rw [hW] at ih
    match ws with
    | [] =>
      simp only [List.getLastD_eq_getLast?] at ih ⊢
      simp at ih ⊢
      obtain ⟨w', hw'⟩ := splitCRLF_singleton b rest w hW
      have hhead : ¬(a = '\r' ∧ w.head? = some '\n') := by
        subst hw'; simpa using h
      rw [splitCRLF_cons_notsep a w hhead, ih]
      simp
    | v :: vs =>
      simpa [List.getLastD_eq_getLast?] using ih

/-- Running the framer from a CRLF-free buffer emits the nonempty complete
segments of the buffered concatenation and keeps the trailing segment. -/
theorem framerRun_general (chunks : List (List Char)) : ∀ (buffer : List Char),
    splitCRLF buffer = [buffer] →
    framerRun buffer chunks
      = ((splitCRLF (buffer ++ chunks.flatten)).dropLast.filter (fun l => !l.isEmpty),
         (splitCRLF (buffer ++ chunks.flatten)).getLastD []) := by
  induction chunks with
  | nil =>
    intro buffer hbuf
    simp [framerRun, hbuf]
  | cons ch chs ih =>
    intro buffer hbuf
    have hb' := splitCRLF_getLastD (buffer ++ ch)
    have ihh := ih _ hb'
    have happ : splitCRLF (buffer ++ (ch :: chs).flatten)
        = (splitCRLF (buffer ++ ch)).dropLast
          ++ splitCRLF ((splitCRLF (buffer ++ ch)).getLastD [] ++ chs.flatten) := by
      have h2 := splitCRLF_append (buffer ++ ch) chs.flatten
      simpa [List.append_assoc] using h2
    have hne := splitCRLF_ne_nil ((splitCRLF (buffer ++ ch)).getLastD [] ++ chs.flatten)
    have hlast : (splitCRLF ((splitCRLF (buffer ++ ch)).getLastD [] ++ chs.flatten)).getLast?
        = some ((splitCRLF ((splitCRLF (buffer ++ ch)).getLastD [] ++ chs.flatten)).getLast hne) :=
      List.getLast?_eq_getLast _ hne
    rw [framerRun]
    simp only [framerStep]
    rw [ihh, happ]
    rw [List.dropLast_append_of_ne_nil _ hne]
    simp only [List.getLastD_eq_getLast?] at hlast
    simp [List.filter_append, List.getLastD_eq_getLast?, List.getLast?_append, hlast]

/-- C5 (amended): for every sequence of byte chunks, the framing layer emits, in
order, exactly the nonempty CRLF-delimited lines of the chunks' concatenation
(empty segments between consecutive CRLFs are dropped by the `if (line)` guard),
retaining the trailing unterminated fragment in the buffer for the next chunk. -/
theorem framer_emits_nonempty_lines (chunks : List (List Char)) :
    framerRun [] chunks
      = ((splitCRLF chunks.flatten).dropLast.filter (fun l => !l.isEmpty),
         (splitCRLF chunks.flatten).getLastD []) := by
  have h := framerRun_general chunks [] (by simp [splitCRLF])
  simpa using h

/-- C5 counterexample: the concatenation "a\r\n\r\nb\r\n" contains the three
CRLF-delimited lines "a", "", "b", but the framer emits only "a" and "b" --
the empty line is dropped, so the framer does not emit exactly the
CRLF-delimited lines of the concatenation. -/
theorem framer_drops_empty_line_counterexample :
    (framerRun [] [("a\r\n\r\nb\r\n".toList)]).1 = [['a'], ['b']]
  ∧ (splitCRLF (List.flatten [("a\r\n\r\nb\r\n".toList)])).dropLast = [['a'], [], ['b']]
  ∧ (framerRun [] [("a\r\n\r\nb\r\n".toList)]).1
      ≠ (splitCRLF (List.flatten [("a\r\n\r\nb\r\n".toList)])).dropLast := by
  decide

/-! ### CommandDispatcher: sendCommand (connection.js lines 85-136)

`sendCommand(command, allowPreliminary)` registers a `response` listener and a
timeout timer.  We model the pending command's listener/timer/settlement state
explicitly and fold it over the sequence of control-channel events (arriving
reply lines and the timer deadline firing).
-/

/-- How the sendCommand promise settles. -/
inductive SettleResult
  | resolvedR (code : Int) (message : List Char) (raw : List Char)
  | rejectedProtocol (code : Option Int) (message : List Char)
  | rejectedTimeout (errText : List Char)
deriving DecidableEq

/-- State of one pending sendCommand: whether the timeout timer is still armed,
whether the `response` listener is still subscribed, and the settlement. -/
structure PendingCmd where
  timerArmed : Bool
  listening : Bool
  settled : Option SettleResult
deriving DecidableEq

/-- State right after `sendCommand` writes the command: timer set, listener on. -/
def initialPending : PendingCmd :=
  { timerArmed := true, listening := true, settled := none }

/-- `responseHandler` (connection.js lines 103-131), one arriving line: the
handler first calls `clearTimeout(timeoutId)`, then inspects the 4th character
for finality and dispatches on the parsed code. -/
def onResponseLine (allowPre : Bool) (st : PendingCmd) (line : List Char) : PendingCmd :=
  if st.listening = false then st
  else
    let st1 := { st with timerArmed := false }
    if isFinalLine line then
      match codeOf line with
      | some c =>
        if 100 ≤ c ∧ c < 200 ∧ allowPre = true then
          st1
        else if 200 ≤ c ∧ c < 400 then
          { st1 with
            listening := false
            settled := some (.resolvedR c (line.drop 4) line) }
        else
          { st1 with
            listening := false
            settled := some (.rejectedProtocol (some c) (line.drop 4)) }
      | none =>
        { st1 with
          listening := false
          settled := some (.rejectedProtocol none (line.drop 4)) }
    else st1

/-- The timeout callback (connection.js lines 98-101): if the timer is still
armed, remove the listener and reject with the timeout error naming the
(password-masked) command text. -/
def onDeadline (command : List Char) (st : PendingCmd) : PendingCmd :=
  if st.timerArmed then
    { timerArmed := false
      listening := false
      settled := some (.rejectedTimeout ("Command timeout: ".toList ++ maskPassword command)) }
  else st

/-- An event observed by a pending command. -/
inductive CtrlEvent
  | lineArrives (line : List Char)
  | deadlineFires
deriving DecidableEq

def runPendingEvents (command : List Char) (allowPre : Bool) :
    PendingCmd → List CtrlEvent → PendingCmd
  | st, [] => st
  | st, .lineArrives l :: es => runPendingEvents command allowPre (onResponseLine allowPre st l) es
  | st, .deadlineFires :: es => runPendingEvents command allowPre (onDeadline command st) es

/-- Session statistics touched by sendCommand (connection.js lines 93-94). -/
structure Stats where
  commandCount : Nat
  lastCommand : Option (List Char)
deriving DecidableEq

/-- Observable result of a sendCommand call. -/
inductive SendResult
  | notConnected
  | settledAs (r : SettleResult)
  | stillPending
deriving DecidableEq

/-- Full model of `sendCommand` (connection.js lines 85-136): rejects without
touching the statistics when not connected; otherwise increments
`_commandCount`, stores the raw command into `_lastCommand`, debug-logs the
password-masked text, and settles according to the control-channel events. -/
def sendCommandFull (connected : Bool) (st : Stats) (command : List Char)
    (allowPre : Bool) (events : List CtrlEvent) :
    Stats × Option (List Char) × SendResult :=
  if connected = false then (st, none, .notConnected)
  else
    ({ commandCount := st.commandCount + 1, lastCommand := some command },
     some (maskPassword command),
     match (runPendingEvents command allowPre initialPending events).settled with
     | some r => .settledAs r
     | none => .stillPending)

def sendCommandResult (connected : Bool) (command : List Char)
    (allowPre : Bool) (events : List CtrlEvent) : SendResult :=
  (sendCommandFull connected ⟨0, none⟩ command allowPre events).2.2

/-! ### size / exists (commands.js `size`, `exists`) -/

/-- Result of `size(path)`: `SIZE <path>` through sendCommand, then
`parseInt(response.message)` (which never throws — NaN is `none`). -/
inductive SizeResult
  | value (n : Option Int)
  | failure
  | stillWaiting
deriving DecidableEq

def sizeRun (connected : Bool) (path : List Char) (events : List CtrlEvent) : SizeResult :=
  match sendCommandResult connected ("SIZE ".toList ++ path) false events with
  | .settledAs (.resolvedR _ message _) => .value (parseIntJS message)
  | .stillPending => .stillWaiting
  | _ => .failure

/-- `exists(path)`: `try { await size(path); return true } catch { return false }`.
`none` models a promise that never settles. -/
def existsRun (connected : Bool) (path : List Char) (events : List CtrlEvent) : Option Bool :=
  match sizeRun connected path events with
  | .value _ => some true
  | .failure => some false
  | .stillWaiting => none

/-- Once the listener is removed and the timer cleared, later events change
nothing. -/
theorem runPendingEvents_stay (command : List Char) (ap : Bool)
    (es : List CtrlEvent) (st : PendingCmd)
    (h1 : st.listening = false) (h2 : st.timerArmed = false) :
    runPendingEvents command ap st es = st := by
  induction es with
  | nil => rfl
  | cons e es ih =>
    cases e with
    | lineArrives l =>
      rw [runPendingEvents, onResponseLine, if_pos h1]
      exact ih
    | deadlineFires =>
      rw [runPendingEvents, onDeadline, if_neg (by simp [h2])]
      exact ih

theorem onResponseLine_preliminary (ap : Bool) (st : PendingCmd) (line : List Char)
    (c : Int) (hl : st.listening = true) (hf : isFinalLine line = true)
    (hc : codeOf line = some c) (h1 : 100 ≤ c) (h2 : c < 200) (hap : ap = true) :
    onResponseLine ap st line = { st with timerArmed := false } := by
  subst hap
  simp [onResponseLine, hl, hf, hc, h1, h2]

theorem onResponseLine_resolves (ap : Bool) (st : PendingCmd) (line : List Char)
    (c : Int) (hl : st.listening = true) (hf : isFinalLine line = true)
    (hc : codeOf line = some c) (h1 : 200 ≤ c) (h2 : c < 400) :
    onResponseLine ap st line
      = { st with
          timerArmed := false
          listening := false
          settled := some (.resolvedR c (line.drop 4) line) } := by
  have hnp : ¬(100 ≤ c ∧ c < 200 ∧ ap = true) := by
    rintro ⟨-, hlt, -⟩; omega
  simp [onResponseLine, hl, hf, hc, hnp, h1, h2]

theorem onResponseLine_rejects (ap : Bool) (st : PendingCmd) (line : List Char)
    (c : Int) (hl : st.listening = true) (hf : isFinalLine line = true)
    (hc : codeOf line = some c) (hrange : 400 ≤ c ∨ c < 200)
    (hnp : ¬(100 ≤ c ∧ c < 200 ∧ ap = true)) :
    onResponseLine ap st line
      = { st with
          timerArmed := false
          listening := false
          settled := some (.rejectedProtocol (some c) (line.drop 4)) } := by
  have hn2 : ¬(200 ≤ c ∧ c < 400) := by
    rcases hrange with h | h <;> (rintro ⟨ha, hb⟩; omega)
  simp [onResponseLine, hl, hf, hc, hnp, hn2]

theorem runPendingEvents_cons_settle (cmd : List Char) (ap : Bool) (l : List Char)
    (es : List CtrlEvent) (st st' : PendingCmd) (h : onResponseLine ap st l = st')
    (hl : st'.listening = false) (ht : st'.timerArmed = false) :
    runPendingEvents cmd ap st (.lineArrives l :: es) = st' := by
  rw [runPendingEvents, h, runPendingEvents_stay _ _ _ _ hl ht]

/-- C1: for every call of sendCommand with an active pending listener, a final
reply line (4th character a space) with code c: if c is in [100,200) and
allowPreliminary holds, the handler keeps waiting (the command stays
subscribed and unsettled, so it resolves only on a subsequent final reply);
if c is in [200,400) it settles resolved with the code, the message
(substring from index 4) and the raw line; if c >= 400 or c < 200 outside the
allowed preliminary case it settles rejected with that code and message. -/
theorem sendCommand_final_reply_cases (allowPre : Bool) (st : PendingCmd)
    (line : List Char) (c : Int)
    (hl : st.listening = true) (hf : isFinalLine line = true)
    (hc : codeOf line = some c) :
    (100 ≤ c → c < 200 → allowPre = true →
       (onResponseLine allowPre st line).settled = st.settled
       ∧ (onResponseLine allowPre st line).listening = true)
  ∧ (200 ≤ c → c < 400 →
       (onResponseLine allowPre st line).settled
           = some (.resolvedR c (line.drop 4) line)
       ∧ (onResponseLine allowPre st line).listening = false)
  ∧ ((400 ≤ c ∨ c < 200) → ¬(100 ≤ c ∧ c < 200 ∧ allowPre = true) →
       (onResponseLine allowPre st line).settled
           = some (.rejectedProtocol (some c) (line.drop 4))
       ∧ (onResponseLine allowPre st line).listening = false) := by
  refine ⟨fun h1 h2 hap => ?_, fun h1 h2 => ?_, fun hrange hnp => ?_⟩
  · rw [onResponseLine_preliminary allowPre st line c hl hf hc h1 h2 hap]
    exact ⟨rfl, hl⟩
  · rw [onResponseLine_resolves allowPre st line c hl hf hc h1 h2]
    exact ⟨rfl, rfl⟩
  · rw [onResponseLine_rejects allowPre st line c hl hf hc hrange hnp]
    exact ⟨rfl, rfl⟩

theorem sendCommand_final_reply_cases_witness :
    (onResponseLine true initialPending ("150 Opening data connection".toList)).settled = none
  ∧ (onResponseLine true initialPending ("150 Opening data connection".toList)).listening = true
  ∧ (onResponseLine true initialPending ("226 Transfer complete".toList)).settled
      = some (.resolvedR 226 ("Transfer complete".toList) ("226 Transfer complete".toList))
  ∧ (onResponseLine false initialPending ("550 No such file".toList)).settled
      = some (.rejectedProtocol (some 550) ("No such file".toList)) := by
  have h150 := (sendCommand_final_reply_cases true initialPending
      ("150 Opening data connection".toList) 150 rfl (by decide) (by decide)).1
      (by decide) (by decide) rfl
  have h226 := (sendCommand_final_reply_cases true initialPending
      ("226 Transfer complete".toList) 226 rfl (by decide) (by decide)).2.1
      (by decide) (by decide)
  have h550 := (sendCommand_final_reply_cases false initialPending
      ("550 No such file".toList) 550 rfl (by decide) (by decide)).2.2
      (Or.inl (by decide)) (by decide)
  exact ⟨h150.1, h150.2, h226.1, h550.1⟩

/-- C3: evaluation of the code at the failing input.  `responseHandler` calls
`clearTimeout(timeoutId)` as its very first action on EVERY arriving line and
never re-arms the timer, so after a continuation line ("211-Extensions", not a
final reply) arrives, the deadline event does nothing: the command stays
pending forever instead of failing with the timeout error.  Only when no line
at all arrives before the deadline does the timeout fire (second conjunct). -/
theorem timeout_disarmed_by_reply_line :
    runPendingEvents ("SIZE /f.txt".toList) false initialPending
        [.lineArrives ("211-Extensions".toList), .deadlineFires]
      = { timerArmed := false, listening := true, settled := none }
  ∧ (runPendingEvents ("SIZE /f.txt".toList) false initialPending [.deadlineFires]).settled
      = some (.rejectedTimeout ("Command timeout: SIZE /f.txt".toList)) := by
  decide

/-- C4 counterexample: a connected `sendCommand("PASS hunter2")` stores the RAW
command text in lastCommand — not the redacted text the claim demands — and a
not-connected call rejects without incrementing commandCount at all. -/
theorem lastCommand_not_redacted_counterexample :
    (sendCommandFull true ⟨0, none⟩ ("PASS hunter2".toList) false []).1.lastCommand
      = some ("PASS hunter2".toList)
  ∧ some ("PASS hunter2".toList) ≠ some (maskPassword ("PASS hunter2".toList))
  ∧ (sendCommandFull false ⟨0, none⟩ ("PASS hunter2".toList) false []).1.commandCount = 0 := by
  decide

/-- C4 (amended): every sendCommand call made while connected increments
commandCount by exactly one and sets lastCommand to the raw (unredacted)
command text, identically for every pattern of subsequent events — resolution,
rejection, timeout, or none; the password redaction applies only to the
debug-log text; a call while not connected rejects without touching the
statistics. -/
theorem sendCommand_stats_update (st : Stats) (cmd : List Char) (ap : Bool)
    (evs evs' : List CtrlEvent) :
    (sendCommandFull true st cmd ap evs).1 = ⟨st.commandCount + 1, some cmd⟩
  ∧ (sendCommandFull true st cmd ap evs).2.1 = some (maskPassword cmd)
  ∧ (sendCommandFull true st cmd ap evs).1 = (sendCommandFull true st cmd ap evs').1
  ∧ (sendCommandFull false st cmd ap evs).1 = st := by
  refine ⟨rfl, rfl, rfl, rfl⟩

/-- C9: if the SIZE command issued by exists(path) is answered by a final 550
reply, exists resolves to false; if the SIZE command succeeds (a final reply
with code in [200,400)), exists resolves to true. -/
theorem exists_size_outcomes (path m line : List Char) (rest : List CtrlEvent)
    (c : Int) (hf : isFinalLine line = true) (hc : codeOf line = some c)
    (h2 : 200 ≤ c) (h4 : c < 400) :
    existsRun true path (.lineArrives ('5' :: '5' :: '0' :: ' ' :: m) :: rest) = some false
  ∧ existsRun true path (.lineArrives line :: rest) = some true := by
  constructor
  · have hrej := onResponseLine_rejects false initialPending
      ('5' :: '5' :: '0' :: ' ' :: m) 550 rfl rfl rfl (Or.inl (by decide)) (by decide)
    have hrun := runPendingEvents_cons_settle ("SIZE ".toList ++ path) false
      ('5' :: '5' :: '0' :: ' ' :: m) rest initialPending _ hrej rfl rfl
    simp at hrun
    simp [existsRun, sizeRun, sendCommandResult, sendCommandFull, hrun]
  · have hres := onResponseLine_resolves false initialPending line c rfl hf hc h2 h4
    have hrun := runPendingEvents_cons_settle ("SIZE ".toList ++ path) false
      line rest initialPending _ hres rfl rfl
    simp at hrun
    simp [existsRun, sizeRun, sendCommandResult, sendCommandFull, hrun]

theorem exists_size_outcomes_witness :
    existsRun true ("f.txt".toList) [.lineArrives ("550 Not found".toList)] = some false
  ∧ existsRun true ("f.txt".toList) [.lineArrives ("213 1024".toList)] = some true := by
  have h := exists_size_outcomes ("f.txt".toList) ("Not found".toList)
    ("213 1024".toList) [] 213 (by decide) (by decide) (by decide) (by decide)
  exact ⟨h.1, h.2⟩

/-- C10: exists(path) never rejects — every failure mode of the underlying SIZE
command maps to a `false` resolution: a not-connected control channel rejects
immediately and yields false for every event pattern; an elapsed deadline
(command timeout) yields false; and every protocol rejection or timeout
rejection of the SIZE command yields false — so a false result does not
distinguish an absent file from a lost or unresponsive session. -/
theorem exists_never_rejects (path : List Char) (events rest : List CtrlEvent)
    (c? : Option Int) (m e : List Char) :
    existsRun false path events = some false
  ∧ existsRun true path (.deadlineFires :: rest) = some false
  ∧ (sendCommandResult true ("SIZE ".toList ++ path) false events
        = .settledAs (.rejectedProtocol c? m) → existsRun true path events = some false)
  ∧ (sendCommandResult true ("SIZE ".toList ++ path) false events
        = .settledAs (.rejectedTimeout e) → existsRun true path events = some false) := by
  refine ⟨?_, ?_, ?_, ?_⟩
  · simp [existsRun, sizeRun, sendCommandResult, sendCommandFull]
  · have hdl : onDeadline ("SIZE ".toList ++ path) initialPending
        = { timerArmed := false
            listening := false
            settled := some (.rejectedTimeout
              ("Command timeout: ".toList ++ maskPassword ("SIZE ".toList ++ path))) } := rfl
    have hrun : runPendingEvents ("SIZE ".toList ++ path) false initialPending
        (.deadlineFires :: rest)
        = { timerArmed := false
            listening := false
            settled := some (.rejectedTimeout
              ("Command timeout: ".toList ++ maskPassword ("SIZE ".toList ++ path))) } := by
      rw [runPendingEvents, hdl, runPendingEvents_stay _ _ _ _ rfl rfl]
    simp at hrun
    simp [existsRun, sizeRun, sendCommandResult, sendCommandFull, hrun]
  · intro h
    simp at h
    simp [existsRun, sizeRun, h]
  · intro h
    simp at h
    simp [existsRun, sizeRun, h]

theorem exists_never_rejects_witness :
    existsRun false ("f.txt".toList) [] = some false
  ∧ existsRun true ("f.txt".toList) [.deadlineFires] = some false
  ∧ existsRun true ("f.txt".toList) [.lineArrives ("550 x".toList)] = some false := by
  have h := exists_never_rejects ("f.txt".toList)
    [.lineArrives ("550 x".toList)] [] (some 550) ("x".toList) []
  exact ⟨(exists_never_rejects ("f.txt".toList) [] [] none [] []).1,
    h.2.1, h.2.2.1 (by decide)⟩

/-! ### TransferOrchestrator: data-socket close handlers (commands.js)

After the data socket closes, each transfer installs a `finalHandler` on the
control channel's response lines and arms a fixed fallback delay (5000 ms for
upload/download, 3000 ms for list).  We model the handler's scan over the
lines arriving within the fallback window; an exhausted list means the
fallback timer fired.
-/

/-- Outcome of the upload close handler (commands.js lines 387-407). -/
inductive UpOutcome
  | resolved
  | rejected (code : Int) (message : List Char)
deriving DecidableEq

/-- Outcome of the download close handler (commands.js lines 440-463). -/
inductive DlOutcome
  | resolved (bytes : List Nat)
  | rejected (code : Int) (message : List Char)
  | pending
deriving DecidableEq

/-- Upload close handler: resolve on 226/250, reject on a code >= 400,
otherwise keep listening; when the 5 s fallback fires, resolve. -/
def uploadCloseOutcome : List (List Char) → UpOutcome
  | [] => .resolved
  | line :: rest =>
    match codeOf line with
    | some c =>
      if c = 226 ∨ c = 250 then .resolved
      else if 400 ≤ c then .rejected c (line.drop 4)
      else uploadCloseOutcome rest
    | none => uploadCloseOutcome rest

/-- Download close handler: resolve with the concatenated chunks on 226/250,
reject on a code >= 400; when the 5 s fallback fires, resolve with the
concatenated chunks only `if (chunks.length > 0)` — otherwise stay pending. -/
def downloadCloseOutcome (chunks : List (List Nat)) : List (List Char) → DlOutcome
  | [] => if chunks.isEmpty then .pending else .resolved chunks.flatten
  | line :: rest =>
    match codeOf line with
    | some c =>
      if c = 226 ∨ c = 250 then .resolved chunks.flatten
      else if 400 ≤ c then .rejected c (line.drop 4)
      else downloadCloseOutcome chunks rest
    | none => downloadCloseOutcome chunks rest

/-- List close handler (commands.js lines 493-509): resolve with the
accumulated text on 226/250; error codes are ignored; the 3 s fallback
resolves with the accumulated text unconditionally. -/
def listCloseOutcome (chunks : List (List Nat)) : List (List Char) → List Nat
  | [] => chunks.flatten
  | line :: rest =>
    match codeOf line with
    | some c =>
      if c = 226 ∨ c = 250 then chunks.flatten
      else listCloseOutcome chunks rest
    | none => listCloseOutcome chunks rest

/-- A terminal control reply that the claim counts as qualifying:
226/250 or any code >= 400. -/
def qualifyingReply (line : List Char) : Bool :=
  match codeOf line with
  | some c => decide (c = 226) || decide (c = 250) || decide (400 ≤ c)
  | none => false

/-- C2 counterexample: a download whose data socket closed after zero data
chunks, with no qualifying terminal reply in the fallback window, stays
pending — the fallback resolves only `if (chunks.length > 0)` — so completion
detection does NOT resolve every transfer successfully. -/
theorem download_fallback_empty_counterexample :
    downloadCloseOutcome [] [] = .pending
  ∧ downloadCloseOutcome [] [] ≠ .resolved (List.flatten []) := by
  decide

/-- C2 (amended): if no qualifying terminal reply (226/250 or a code >= 400)
arrives within the fallback window, the fallback delay resolves an upload and
a list transfer successfully, and resolves a download successfully only when
at least one data chunk was received; a download with zero received chunks
stays pending. -/
theorem transfer_fallback_resolution (lines : List (List Char))
    (chunks : List (List Nat))
    (h : ∀ l ∈ lines, qualifyingReply l = false) :
    uploadCloseOutcome lines = .resolved
  ∧ listCloseOutcome chunks lines = chunks.flatten
  ∧ (chunks ≠ [] → downloadCloseOutcome chunks lines = .resolved chunks.flatten)
  ∧ (chunks = [] → downloadCloseOutcome chunks lines = .pending) := by
  induction lines with
  | nil =>
    refine ⟨rfl, rfl, fun hc => ?_, fun hc => ?_⟩
    · simp [downloadCloseOutcome, hc]
    · simp [downloadCloseOutcome, hc]
  | cons line rest ih =>
    have hline : qualifyingReply line = false := h line (List.mem_cons_self line rest)
    have hrest : ∀ l ∈ rest, qualifyingReply l = false :=
      fun l hl => h l (List.mem_cons_of_mem line hl)
    obtain ⟨ih1, ih2, ih3, ih4⟩ := ih hrest
    unfold qualifyingReply at hline
    match hcode : codeOf line with
    | some c =>
      rw [hcode] at hline
      simp only [Bool.or_eq_false_iff, decide_eq_false_iff_not] at hline
      obtain ⟨⟨h226, h250⟩, h400⟩ := hline
      have hnq : ¬(c = 226 ∨ c = 250) := by
        rintro (h | h) <;> [exact h226 h; exact h250 h]
      have hn4 : ¬(400 ≤ c) := h400
      refine ⟨?_, ?_, ?_, ?_⟩
      · rw [uploadCloseOutcome, hcode]; simp only [if_neg hnq, if_neg hn4]; exact ih1
      · rw [listCloseOutcome, hcode]; simp only [if_neg hnq]; exact ih2
      · rw [downloadCloseOutcome, hcode]; simp only [if_neg hnq, if_neg hn4]; exact ih3
      · rw [downloadCloseOutcome, hcode]; simp only [if_neg hnq, if_neg hn4]; exact ih4
    | none =>
      refine ⟨?_, ?_, ?_, ?_⟩
      · rw [uploadCloseOutcome, hcode]; exact ih1
      · rw [listCloseOutcome, hcode]; exact ih2
      · rw [downloadCloseOutcome, hcode]; exact ih3
      · rw [downloadCloseOutcome, hcode]; exact ih4

theorem transfer_fallback_resolution_witness :
    uploadCloseOutcome [("200-status".toList)] = .resolved
  ∧ listCloseOutcome [[72, 105]] [("200-status".toList)] = [72, 105]
  ∧ downloadCloseOutcome [[72, 105]] [("200-status".toList)] = .resolved [72, 105]
  ∧ downloadCloseOutcome ([] : List (List Nat)) [("200-status".toList)] = .pending := by
  have h1 := transfer_fallback_resolution [("200-status".toList)] [[72, 105]]
    (by decide)
  have h2 := transfer_fallback_resolution [("200-status".toList)] ([] : List (List Nat))
    (by decide)
  exact ⟨h1.1, h1.2.1, h1.2.2.1 (by simp), h2.2.2.2 rfl⟩

/-! ### PassiveDataChannel: PASV reply parsing

`parsePasvResponse` / `enterPassiveMode` run the regex
`\((\d+),(\d+),(\d+),(\d+),(\d+),(\d+)\)` over the reply message and compute
`host = a.b.c.d`, `port = p1*256 + p2`.  The regex is embedded as a leftmost
scan trying, at each position, to read a parenthesized comma-separated run of
six nonempty digit groups (greedy digit runs; the pattern has no ambiguity so
no backtracking is needed).
-/

structure PasvGroups where
  g1 : List Char
  g2 : List Char
  g3 : List Char
  g4 : List Char
  g5 : List Char
  g6 : List Char
deriving DecidableEq

/-- Read one capture group `(\d+)` followed by the separator `sep`. -/
def grabGroup (sep : Char) (s : List Char) : Option (List Char × List Char) :=
  let ds := s.takeWhile Char.isDigit
  let r := s.dropWhile Char.isDigit
  if ds.isEmpty then none
  else
    match r with
    | c :: r2 => if c = sep then some (ds, r2) else none
    | [] => none

/-- Try to match the whole PASV pattern at the start of `s`. -/
def matchPasvAt : List Char → Option PasvGroups
  | [] => none
  | c0 :: r0 =>
    if c0 = '(' then
      (grabGroup ',' r0).bind fun t1 =>
      (grabGroup ',' t1.2).bind fun t2 =>
      (grabGroup ',' t2.2).bind fun t3 =>
      (grabGroup ',' t3.2).bind fun t4 =>
      (grabGroup ',' t4.2).bind fun t5 =>
      (grabGroup ')' t5.2).map fun t6 =>
      ⟨t1.1, t2.1, t3.1, t4.1, t5.1, t6.1⟩
    else none

/-- Leftmost regex search: try each position from the left. -/
def findPasv : List Char → Option PasvGroups
  | [] => none
  | c :: rest =>
    match matchPasvAt (c :: rest) with
    | some g => some g
    | none => findPasv rest

/-- `parsePasvResponse` (lib/utils.js lines 187-198, identical inline in
connection.js `enterPassiveMode`): on a match, host is the four groups joined
with dots and port is `parseInt(p1)*256 + parseInt(p2)`; otherwise the parse
fails (`none` models the thrown parse error). -/
def parsePasvResponse (message : List Char) : Option (List Char × Nat) :=
  (findPasv message).map fun g =>
    (g.g1 ++ '.' :: g.g2 ++ '.' :: g.g3 ++ '.' :: g.g4,
     digitsVal g.g5 * 256 + digitsVal g.g6)

/-- A nonempty all-digit string. -/
def isDigitStr (l : List Char) : Prop :=
  l ≠ [] ∧ ∀ c ∈ l, c.isDigit = true

instance (l : List Char) : Decidable (isDigitStr l) := by
  unfold isDigitStr; infer_instance

/-- The literal text of the pattern `(a,b,c,d,p1,p2)` for given groups. -/
def pasvPattern (g : PasvGroups) : List Char :=
  '(' :: (g.g1 ++ ',' :: (g.g2 ++ ',' :: (g.g3 ++ ',' :: (g.g4 ++ ',' ::
    (g.g5 ++ ',' :: (g.g6 ++ [')']))))))

def groupsDigits (g : PasvGroups) : Prop :=
  isDigitStr g.g1 ∧ isDigitStr g.g2 ∧ isDigitStr g.g3 ∧ isDigitStr g.g4
    ∧ isDigitStr g.g5 ∧ isDigitStr g.g6

instance (g : PasvGroups) : Decidable (groupsDigits g) := by
  unfold groupsDigits; infer_instance

/-- The spec-side notion "the message contains the pattern (a,b,c,d,p1,p2)". -/
def containsPasv (msg : List Char) : Prop :=
  ∃ (g : PasvGroups) (pre post : List Char),
    groupsDigits g ∧ msg = pre ++ pasvPattern g ++ post

theorem grabGroup_sound (sep : Char) (s ds r : List Char)
    (h : grabGroup sep s = some (ds, r)) :
    s = ds ++ sep :: r ∧ ds ≠ [] ∧ ∀ c ∈ ds, c.isDigit = true := by
  simp only [grabGroup] at h
  split at h
  · exact absurd h (by simp)
  · rename_i hne
    split at h
    · rename_i c r2 hr
      split at h
      · rename_i hcsep
        simp at h
        obtain ⟨hds, hr2⟩ := h
        subst hds; subst hr2; subst hcsep
        refine ⟨?_, by simpa using hne, fun d hd => List.mem_takeWhile_imp hd⟩
        conv_lhs => rw [← List.takeWhile_append_dropWhile (p := Char.isDigit) (l := s)]
        rw [hr]
      · exact absurd h (by simp)
    · exact absurd h (by simp)

theorem grabGroup_complete (sep : Char) (ds r : List Char)
    (hne : ds ≠ []) (hdig : ∀ c ∈ ds, c.isDigit = true)
    (hsep : sep.isDigit = false) :
    grabGroup sep (ds ++ sep :: r) = some (ds, r) := by
  have ht : (ds ++ sep :: r).takeWhile Char.isDigit = ds := by
    rw [List.takeWhile_append_of_pos hdig]
    simp [List.takeWhile_cons, hsep]
  have hd : (ds ++ sep :: r).dropWhile Char.isDigit = sep :: r := by
    rw [List.dropWhile_append_of_pos hdig]
    simp [List.dropWhile_cons, hsep]
  simp [grabGroup, ht, hd, hne]

theorem matchPasvAt_sound (s : List Char) (g : PasvGroups)
    (h : matchPasvAt s = some g) :
    ∃ rest, s = pasvPattern g ++ rest ∧ groupsDigits g := by
  match s with
  | [] => simp [matchPasvAt] at h
  | c0 :: r0 =>
    rw [matchPasvAt] at h
    split at h
    · rename_i hpar
      subst hpar
      simp only [Option.bind_eq_some, Option.map_eq_some'] at h
      obtain ⟨t1, h1, t2, h2, t3, h3, t4, h4, t5, h5, t6, h6, hg⟩ := h
      obtain ⟨e1, ne1, d1⟩ := grabGroup_sound ',' r0 t1.1 t1.2 h1
      obtain ⟨e2, ne2, d2⟩ := grabGroup_sound ',' t1.2 t2.1 t2.2 h2
      obtain ⟨e3, ne3, d3⟩ := grabGroup_sound ',' t2.2 t3.1 t3.2 h3
      obtain ⟨e4, ne4, d4⟩ := grabGroup_sound ',' t3.2 t4.1 t4.2 h4
      obtain ⟨e5, ne5, d5⟩ := grabGroup_sound ',' t4.2 t5.1 t5.2 h5
      obtain ⟨e6, ne6, d6⟩ := grabGroup_sound ')' t5.2 t6.1 t6.2 h6
      subst hg
      refine ⟨t6.2, ?_, ⟨ne1, d1⟩, ⟨ne2, d2⟩, ⟨ne3, d3⟩, ⟨ne4, d4⟩, ⟨ne5, d5⟩, ⟨ne6, d6⟩⟩
      rw [e1, e2, e3, e4, e5, e6] at *
      simp [pasvPattern]
    · exact absurd h (by simp)

theorem matchPasvAt_complete (g : PasvGroups) (rest : List Char)
    (hg : groupsDigits g) :
    matchPasvAt (pasvPattern g ++ rest) = some g := by
  obtain ⟨⟨ne1, d1⟩, ⟨ne2, d2⟩, ⟨ne3, d3⟩, ⟨ne4, d4⟩, ⟨ne5, d5⟩, ⟨ne6, d6⟩⟩ := hg
  have hcomma : Char.isDigit ',' = false := by decide
  have hparen : Char.isDigit ')' = false := by decide
  have h6 := grabGroup_complete ')' g.g6 rest ne6 d6 hparen
  have h5 := grabGroup_complete ',' g.g5 (g.g6 ++ ')' :: rest) ne5 d5 hcomma
  have h4 := grabGroup_complete ',' g.g4 (g.g5 ++ ',' :: (g.g6 ++ ')' :: rest)) ne4 d4 hcomma
  have h3 := grabGroup_complete ',' g.g3
    (g.g4 ++ ',' :: (g.g5 ++ ',' :: (g.g6 ++ ')' :: rest))) ne3 d3 hcomma
  have h2 := grabGroup_complete ',' g.g2
    (g.g3 ++ ',' :: (g.g4 ++ ',' :: (g.g5 ++ ',' :: (g.g6 ++ ')' :: rest)))) ne2 d2 hcomma
  have h1 := grabGroup_complete ',' g.g1
    (g.g2 ++ ',' :: (g.g3 ++ ',' :: (g.g4 ++ ',' :: (g.g5 ++ ',' ::
      (g.g6 ++ ')' :: rest))))) ne1 d1 hcomma
  have hshape : pasvPattern g ++ rest
      = '(' :: (g.g1 ++ ',' :: (g.g2 ++ ',' :: (g.g3 ++ ',' :: (g.g4 ++ ',' ::
        (g.g5 ++ ',' :: (g.g6 ++ ')' :: rest)))))) := by
    simp [pasvPattern]
  rw [hshape, matchPasvAt]
  simp [h1, h2, h3, h4, h5, h6]

theorem findPasv_sound (msg : List Char) (g : PasvGroups)
    (h : findPasv msg = some g) :
    (∃ pre post, msg = pre ++ pasvPattern g ++ post) ∧ groupsDigits g := by
  induction msg with
  | nil => simp [findPasv] at h
  | cons c rest ih =>
    rw [findPasv] at h
    cases hm : matchPasvAt (c :: rest) with
    | some g' =>
      rw [hm] at h
      simp at h
      subst h
      obtain ⟨r2, he, hd⟩ := matchPasvAt_sound _ _ hm
      exact ⟨⟨[], r2, by simpa using he⟩, hd⟩
    | none =>
      rw [hm] at h
      obtain ⟨⟨pre, post, he⟩, hd⟩ := ih h
      exact ⟨⟨c :: pre, post, by simp [he]⟩, hd⟩

theorem findPasv_isSome (msg : List Char) (h : containsPasv msg) :
    ∃ g, findPasv msg = some g := by
  obtain ⟨g, pre, post, hd, he⟩ := h
  subst he
  induction pre with
  | nil =>
    simp only [List.nil_append]
    have hm := matchPasvAt_complete g post hd
    rcases hpp : pasvPattern g ++ post with _ | ⟨c, rest⟩
    · exact absurd hpp (by simp [pasvPattern])
    · rw [hpp] at hm
      refine ⟨g, ?_⟩
      rw [findPasv, hm]
  | cons c pre ih =>
    simp only [List.cons_append]
    rw [findPasv]
    cases hm : matchPasvAt (c :: (pre ++ pasvPattern g ++ post)) with
    | some g' => exact ⟨g', rfl⟩
    | none => exact ih

/-- C6: for every PASV reply message containing the pattern (a,b,c,d,p1,p2)
(six nonempty digit groups), the parse returns an endpoint whose host is
"a.b.c.d" for an occurrence of the pattern in the message and whose port is
p1*256 + p2; for every message in which the pattern is absent, the parse
fails. -/
theorem pasv_parse_correct (msg : List Char) :
    (containsPasv msg →
       ∃ g : PasvGroups, groupsDigits g
         ∧ (∃ pre post, msg = pre ++ pasvPattern g ++ post)
         ∧ parsePasvResponse msg
             = some (g.g1 ++ '.' :: g.g2 ++ '.' :: g.g3 ++ '.' :: g.g4,
                     digitsVal g.g5 * 256 + digitsVal g.g6))
  ∧ (¬ containsPasv msg → parsePasvResponse msg = none) := by
  constructor
  · intro h
    obtain ⟨g0, hg0⟩ := findPasv_isSome msg h
    obtain ⟨⟨pre, post, he⟩, hd⟩ := findPasv_sound msg g0 hg0
    exact ⟨g0, hd, ⟨pre, post, he⟩, by simp [parsePasvResponse, hg0]⟩
  · intro h
    cases hf : findPasv msg with
    | some g =>
      obtain ⟨⟨pre, post, he⟩, hd⟩ := findPasv_sound msg g hf
      exact absurd ⟨g, pre, post, hd, he⟩ h
    | none => simp [parsePasvResponse, hf]

theorem pasv_parse_correct_witness :
    containsPasv ("227 Entering Passive Mode (127,0,0,1,200,50).".toList)
  ∧ (∃ g : PasvGroups, groupsDigits g
       ∧ (∃ pre post, "227 Entering Passive Mode (127,0,0,1,200,50).".toList
            = pre ++ pasvPattern g ++ post)
       ∧ parsePasvResponse ("227 Entering Passive Mode (127,0,0,1,200,50).".toList)
           = some (g.g1 ++ '.' :: g.g2 ++ '.' :: g.g3 ++ '.' :: g.g4,
                   digitsVal g.g5 * 256 + digitsVal g.g6))
  ∧ parsePasvResponse ("227 Entering Passive Mode (127,0,0,1,200,50).".toList)
      = some ("127.0.0.1".toList, 51250) := by
  have hc : containsPasv ("227 Entering Passive Mode (127,0,0,1,200,50).".toList) :=
    ⟨⟨"127".toList, "0".toList, "0".toList, "1".toList, "200".toList, "50".toList⟩,
     "227 Entering Passive Mode ".toList, ".".toList, by decide, by decide⟩
  exact ⟨hc, (pasv_parse_correct _).1 hc, by decide⟩

/-! ### PathResolver: normalizePath, ensureDir (lib/utils.js, commands.js)

`ensureDir` probes with CWD, recurses on the parent, then MKD; an MKD failure
whose message passes the `includes('550') || includes('exists')` test is
swallowed.  The remote server is modelled as an environment: CWD succeeds
exactly on an existing directory (changing the working directory); MKD creates
a missing directory and answers an existing one with a 550 already-exists
reply.
-/

/-- `path.replace(/\/+/g, '/')`: collapse runs of slashes to one. -/
def collapseSlashes : List Char → List Char
  | [] => []
  | [c] => [c]
  | a :: b :: rest =>
    if a = '/' ∧ b = '/' then collapseSlashes (b :: rest)
    else a :: collapseSlashes (b :: rest)

/-- `normalizePath` (lib/utils.js lines 227-229): backslashes to slashes, then
collapse repeated slashes. -/
def normalizePath (p : List Char) : List Char :=
  collapseSlashes (p.map fun c => if c = '\\' then '/' else c)

/-- `s.lastIndexOf('/')`, with `none` for -1. -/
def lastIndexOfSlash : List Char → Option Nat
  | [] => none
  | c :: rest =>
    match lastIndexOfSlash rest with
    | some i => some (i + 1)
    | none => if c = '/' then some 0 else none

/-- `normalized.substring(0, normalized.lastIndexOf('/')) || '/'`
(commands.js line 612): the empty substring (index -1 or 0) is falsy and
becomes "/". -/
def parentDirOf (n : List Char) : List Char :=
  match lastIndexOfSlash n with
  | none => ['/']
  | some 0 => ['/']
  | some (i + 1) => n.take (i + 1)

theorem collapseSlashes_length_le (l : List Char) :
    (collapseSlashes l).length ≤ l.length := by
  induction l using collapseSlashes.induct with
  | case1 => simp [collapseSlashes]
  | case2 c => simp [collapseSlashes]
  | case3 a b rest h ih =>
    rw [collapseSlashes, if_pos h]
    simp only [List.length_cons] at *
    omega
  | case4 a b rest h ih =>
    rw [collapseSlashes, if_neg h]
    simp only [List.length_cons] at *
    omega

theorem normalizePath_length_le (p : List Char) :
    (normalizePath p).length ≤ p.length := by
  unfold normalizePath
  simpa using collapseSlashes_length_le (p.map fun c => if c = '\\' then '/' else c)

theorem lastIndexOfSlash_lt (l : List Char) (i : Nat)
    (h : lastIndexOfSlash l = some i) : i < l.length := by
  induction l generalizing i with
  | nil => simp [lastIndexOfSlash] at h
  | cons c rest ih =>
    rw [lastIndexOfSlash] at h
    cases hr : lastIndexOfSlash rest with
    | some j =>
      rw [hr] at h
      have hj := ih j hr
      have hji : j + 1 = i := by simpa using h
      simp only [List.length_cons]
      omega
    | none =>
      rw [hr] at h
      by_cases hc : c = '/'
      · rw [if_pos hc] at h
        have h0 : 0 = i := by simpa using h
        simp only [List.length_cons]
        omega
      · rw [if_neg hc] at h
        simp at h

theorem parentDirOf_length_lt (n : List Char) (h : parentDirOf n ≠ ['/']) :
    (parentDirOf n).length < n.length := by
  unfold parentDirOf at h ⊢
  cases hl : lastIndexOfSlash n with
  | none => rw [hl] at h; simp at h
  | some i =>
    match i with
    | 0 => rw [hl] at h; simp at h
    | i + 1 =>
      have hlt := lastIndexOfSlash_lt n (i + 1) hl
      simp [List.length_take]
      omega

instance : DecidableEq (Except (List Char) Unit) := fun a b =>
  match a, b with
  | .ok (), .ok () => isTrue rfl
  | .error e1, .error e2 =>
    if h : e1 = e2 then isTrue (by rw [h])
    else isFalse fun hx => h (by injection hx)
  | .ok _, .error _ => isFalse fun hx => Except.noConfusion hx
  | .error _, .ok _ => isFalse fun hx => Except.noConfusion hx

/-- A directory command issued on the control channel by ensureDir. -/
inductive FtpCmd
  | cwdCmd (path : List Char)
  | mkdCmd (path : List Char)
deriving DecidableEq

def FtpCmd.isMkd : FtpCmd → Bool
  | .mkdCmd _ => true
  | .cwdCmd _ => false

/-- Environment model of the remote server's directory state. -/
structure Server where
  dirs : List (List Char)
  cwd : List Char
deriving DecidableEq

/-- CWD: succeeds exactly on an existing directory. -/
def serverCwd (srv : Server) (p : List Char) : Except (List Char) Server :=
  if p ∈ srv.dirs then .ok { srv with cwd := p }
  else .error ("FTP Error 550: Failed to change directory.".toList)

/-- MKD: creates a missing directory; an existing one gets a 550 reply. -/
def serverMkd (srv : Server) (p : List Char) : Except (List Char) Server :=
  if p ∈ srv.dirs then .error ("FTP Error 550: Directory already exists.".toList)
  else .ok { srv with dirs := p :: srv.dirs }

/-- The MKD recovery step of ensureDir (commands.js lines 619-627): re-raise
the error only when its message contains neither '550' nor 'exists'. -/
def mkdRecover (res : Except (List Char) Unit) : Except (List Char) Unit :=
  match res with
  | .ok _ => .ok ()
  | .error e =>
    if !(strIncludes e ("550".toList)) && !(strIncludes e ("exists".toList)) then
      .error e
    else .ok ()

/-- Result of an ensureDir call: outcome, final server state, and the trace of
directory commands issued (for this path and its ancestors). -/
structure EnsureResult where
  res : Except (List Char) Unit
  srv : Server
  trace : List FtpCmd
deriving DecidableEq

/-- The MKD attempt of ensureDir on the normalized path `n`, after the parent
step produced server state `srv2` and trace `t`: try `serverMkd`; on failure
apply `mkdRecover` (commands.js lines 619-627). -/
def mkdStep (srv2 : Server) (n : List Char) (t : List FtpCmd) : EnsureResult :=
  match serverMkd srv2 n with
  | .ok srv3 => ⟨.ok (), srv3, .cwdCmd n :: (t ++ [.mkdCmd n])⟩
  | .error e =>
    match mkdRecover (.error e) with
    | .ok _ => ⟨.ok (), srv2, .cwdCmd n :: (t ++ [.mkdCmd n])⟩
    | .error e2 => ⟨.error e2, srv2, .cwdCmd n :: (t ++ [.mkdCmd n])⟩

/-- Continuation after the failed CWD probe: an error from the recursive
parent call propagates (the recursive `await` is not wrapped in a try); a
successful parent step is followed by the MKD attempt. -/
def afterParent (n : List Char) (ps : EnsureResult) : EnsureResult :=
  match ps with
  | ⟨.error e, srv2, t⟩ => ⟨.error e, srv2, .cwdCmd n :: t⟩
  | ⟨.ok _, srv2, t⟩ => mkdStep srv2 n t

/-- `ensureDir` (commands.js lines 592-628): normalize; trivially succeed on
"/" or "."; probe with CWD; on failure recursively ensure the parent (when
recursive and the parent is not "/" or "."), then MKD, swallowing an
already-exists-class failure via `mkdRecover`. -/
def ensureDir (srv : Server) (dirPath : List Char) (recursive : Bool) : EnsureResult :=
  if normalizePath dirPath = ['/'] ∨ normalizePath dirPath = ['.'] then
    ⟨.ok (), srv, []⟩
  else
    match serverCwd srv (normalizePath dirPath) with
    | .ok srv2 => ⟨.ok (), srv2, [.cwdCmd (normalizePath dirPath)]⟩
    | .error _ =>
      afterParent (normalizePath dirPath)
        (if recursive then
           if hp : parentDirOf (normalizePath dirPath) ≠ ['/']
               ∧ parentDirOf (normalizePath dirPath) ≠ ['.'] then
             ensureDir srv (parentDirOf (normalizePath dirPath)) true
           else ⟨.ok (), srv, []⟩
         else ⟨.ok (), srv, []⟩)
termination_by dirPath.length
decreasing_by
  exact lt_of_lt_of_le (parentDirOf_length_lt _ hp.1) (normalizePath_length_le _)

theorem serverCwd_ok (srv : Server) (p : List Char) (srv2 : Server)
    (h : serverCwd srv p = .ok srv2) :
    p ∈ srv.dirs ∧ srv2 = { srv with cwd := p } := by
  unfold serverCwd at h
  split at h
  · rename_i hmem
    simp at h
    exact ⟨hmem, h.symm⟩
  · simp at h

theorem serverMkd_ok (srv : Server) (p : List Char) (srv3 : Server)
    (h : serverMkd srv p = .ok srv3) : srv3.dirs = p :: srv.dirs := by
  unfold serverMkd at h
  split at h
  · simp at h
  · simp at h
    rw [← h]

theorem serverMkd_err (srv : Server) (p : List Char) (e : List Char)
    (h : serverMkd srv p = .error e) : p ∈ srv.dirs := by
  unfold serverMkd at h
  split at h
  · assumption
  · simp at h

/-- If the MKD attempt (with recovery) reports success, the directory is in
the resulting server state. -/
theorem afterParent_ok_mem (n : List Char) (ps : EnsureResult)
    (h : (afterParent n ps).res = .ok ()) :
    n ∈ (afterParent n ps).srv.dirs := by
  rcases ps with ⟨res0, srv0, t0⟩
  cases res0 with
  | error e => simp [afterParent] at h
  | ok u =>
    simp only [afterParent, mkdStep] at h ⊢
    split
    · rename_i srv3 hm
      have hd := serverMkd_ok srv0 n srv3 hm
      simp [hd]
    · rename_i e hm
      have hmem := serverMkd_err srv0 n e hm
      split
      · simpa using hmem
      · rename_i e2 hr
        simp [hm, hr] at h

theorem ensureDir_trivial (srv : Server) (p : List Char) (r : Bool)
    (ht : normalizePath p = ['/'] ∨ normalizePath p = ['.']) :
    ensureDir srv p r = ⟨.ok (), srv, []⟩ := by
  rw [ensureDir, if_pos ht]

/-- When the normalized directory already exists on the server, ensureDir
takes the CWD-probe path: it succeeds, changes the working directory, and
issues exactly one CWD command. -/
theorem ensureDir_cwd_exists (srv : Server) (p : List Char)
    (hmem : normalizePath p ∈ srv.dirs)
    (hnt : ¬(normalizePath p = ['/'] ∨ normalizePath p = ['.'])) :
    ensureDir srv p true
      = ⟨.ok (), { srv with cwd := normalizePath p }, [.cwdCmd (normalizePath p)]⟩ := by
  rw [ensureDir, if_neg hnt]
  have hc : serverCwd srv (normalizePath p) = .ok { srv with cwd := normalizePath p } := by
    simp [serverCwd, hmem]
  rw [hc]

/-- A successful ensureDir leaves the normalized path existing on the server
(or the path was trivial). -/
theorem ensureDir_ok_mem (srv : Server) (p : List Char) (r : Bool)
    (h : (ensureDir srv p r).res = .ok ()) :
    normalizePath p = ['/'] ∨ normalizePath p = ['.']
      ∨ normalizePath p ∈ (ensureDir srv p r).srv.dirs := by
  by_cases ht : normalizePath p = ['/'] ∨ normalizePath p = ['.']
  · tauto
  · right; right
    rw [ensureDir, if_neg ht] at h ⊢
    cases hc : serverCwd srv (normalizePath p) with
    | ok srv2 =>
      obtain ⟨hmem, hs2⟩ := serverCwd_ok srv _ srv2 hc
      subst hs2
      simpa using hmem
    | error e =>
      rw [hc] at h
      exact afterParent_ok_mem _ _ h

/-- C7 counterexample: an MKD failure reading "FTP Error 550: Permission
denied." is treated as success by ensureDir's recovery — its text contains
'550' — even though it does not indicate that the directory already exists
(it does not even contain "exists"), so the swallow does not happen
"exactly when" the error text indicates an already-existing directory. -/
theorem mkd_swallow_permission_denied_counterexample :
    mkdRecover (.error ("FTP Error 550: Permission denied.".toList)) = .ok ()
  ∧ strIncludes ("FTP Error 550: Permission denied.".toList) ("exists".toList) = false := by
  decide

/-- C7 (amended): an MKD failure of ensureDir is treated as success exactly
when its error text contains the substring "550" or the substring "exists";
every other MKD error is re-raised unchanged to the caller. -/
theorem mkd_error_recovery_iff (e : List Char) :
    (mkdRecover (.error e) = .ok ()
       ↔ (strIncludes e ("550".toList) = true ∨ strIncludes e ("exists".toList) = true))
  ∧ (strIncludes e ("550".toList) = false → strIncludes e ("exists".toList) = false →
       mkdRecover (.error e) = .error e) := by
  have hred : mkdRecover (.error e)
      = if (!strIncludes e ("550".toList) && !strIncludes e ("exists".toList)) = true
        then Except.error e else Except.ok () := rfl
  constructor
  · rw [hred]
    cases h5 : strIncludes e ("550".toList) <;>
      cases hx : strIncludes e ("exists".toList) <;> simp
  · intro h5 hx
    rw [hred, h5, hx]
    simp

theorem mkd_error_recovery_iff_witness :
    mkdRecover (.error ("FTP Error 550: File exists.".toList)) = .ok ()
  ∧ mkdRecover (.error ("FTP Error 421: Service not available.".toList))
      = .error ("FTP Error 421: Service not available.".toList) := by
  constructor
  · exact (mkd_error_recovery_iff _).1.mpr (Or.inl (by decide))
  · exact (mkd_error_recovery_iff _).2 (by decide) (by decide)

/-- C8: calling ensureDir on the same path twice in sequence, from any server
state in which the first call succeeded, succeeds both times; the second call
issues no MKD command, and — whenever the normalized path is not trivially
"/" or "." — its whole command trace is a single successful CWD probe. -/
theorem ensureDir_idempotent (srv : Server) (p : List Char)
    (h : (ensureDir srv p true).res = .ok ()) :
    (ensureDir (ensureDir srv p true).srv p true).res = .ok ()
  ∧ ((ensureDir (ensureDir srv p true).srv p true).trace.all fun c => !c.isMkd) = true
  ∧ (¬(normalizePath p = ['/'] ∨ normalizePath p = ['.']) →
      (ensureDir (ensureDir srv p true).srv p true).trace
        = [.cwdCmd (normalizePath p)]) := by
  by_cases ht : normalizePath p = ['/'] ∨ normalizePath p = ['.']
  · rw [ensureDir_trivial _ _ _ ht]
    exact ⟨rfl, rfl, fun hc => absurd ht hc⟩
  · have hmem : normalizePath p ∈ (ensureDir srv p true).srv.dirs := by
      rcases ensureDir_ok_mem srv p true h with h1 | h2 | h3
      · exact absurd (Or.inl h1) ht
      · exact absurd (Or.inr h2) ht
      · exact h3
    rw [ensureDir_cwd_exists _ _ hmem ht]
    exact ⟨rfl, rfl, fun _ => rfl⟩

theorem ensureDir_idempotent_witness :
    (ensureDir ⟨[['/', 'a']], ['/']⟩ ['/', 'a'] true).res = .ok ()
  ∧ (ensureDir (ensureDir ⟨[['/', 'a']], ['/']⟩ ['/', 'a'] true).srv ['/', 'a'] true).res
      = .ok ()
  ∧ ((ensureDir (ensureDir ⟨[['/', 'a']], ['/']⟩ ['/', 'a'] true).srv
        ['/', 'a'] true).trace.all fun c => !c.isMkd) = true
  ∧ (ensureDir (ensureDir ⟨[['/', 'a']], ['/']⟩ ['/', 'a'] true).srv ['/', 'a'] true).trace
      = [.cwdCmd (normalizePath ['/', 'a'])] := by
  have h1 := ensureDir_cwd_exists ⟨[['/', 'a']], ['/']⟩ ['/', 'a'] (by decide) (by decide)
  have hres : (ensureDir ⟨[['/', 'a']], ['/']⟩ ['/', 'a'] true).res = .ok () := by
    rw [h1]
  have h2 := ensureDir_idempotent ⟨[['/', 'a']], ['/']⟩ ['/', 'a'] hres
  exact ⟨hres, h2.1, h2.2.1, h2.2.2 (by decide)⟩
